import Mathlib

/-!
# Verification of the hawk predicate-query core

Shallow embedding of the `hawk` repository's expression parser
(`crates/hawk-parser/src/lib.rs`, built on nom) and evaluator
(`crates/hawk-core/src/source/mod.rs`, over ion-rs values), together with
theorems settling the frozen claims about them.

Modelling conventions:
* Rust `i64`/`usize` string parsing is modelled exactly, including the
  optional leading `+` sign accepted by Rust's unsigned `FromStr` and the
  64-bit overflow bound.
* ion-rs `Value` is modelled by `Hawk.Value`; the `Int::I64`/`Int::BigInt`
  split is kept because the coercion table in `coerce_value` distinguishes
  the two representations.  Equality (`PartialEq`) on ion `Int` is numeric
  across the two representations, as in ion-rs.
* `f64`, ion `Decimal` and ion `Timestamp` payloads are external-collaborator
  values (spec section 6); their payloads are modelled by `ℚ` resp. `Int`
  and the external text readers by simplified exact readers.  No claim
  evaluates a float, decimal or timestamp payload.
* ion `Struct` records are modelled as `List Value` (field names are never
  consulted by the evaluator).
* The recursive parser and evaluator are written with an explicit fuel
  argument (structural recursion on `Nat`) so that every definition is
  executable by kernel reduction; the fuel of the top-level wrappers is an
  over-approximation of the recursion depth, which is bounded by the input
  length (parser) resp. the expression depth (evaluator).
-/

namespace Hawk

/-- AST of the query language, from `hawk-parser/src/lib.rs` (`enum Expr`).
`Integer` holds a Rust `i64`; the parser only constructs values in the
`i64` range. -/
inductive Expr where
  | Integer (v : Int)
  | String (s : String)
  | Variable (path : String)
  | Equal (lhs rhs : Expr)
  | NotEqual (lhs rhs : Expr)
  | LessThan (lhs rhs : Expr)
  | LessThanOrEqual (lhs rhs : Expr)
  | GreaterThan (lhs rhs : Expr)
  | GreaterThanOrEqual (lhs rhs : Expr)
  | And (lhs rhs : Expr)
  | Or (lhs rhs : Expr)
  | Predicate (path : String) (pred : Expr)
deriving DecidableEq, Repr

/-- ion-rs `types::Int`: a 64-bit or big-integer representation.  Comparison
and equality are numeric (representation-independent), as in ion-rs. -/
inductive IonInt where
  | i64 (v : Int)
  | bigInt (v : Int)
deriving DecidableEq, Repr

def IonInt.toInt : IonInt → Int
  | .i64 v => v
  | .bigInt v => v

/-- ion-rs `element::Value`, restricted to the scalar kinds reachable in this
program.  `Float` carries its numeric value as `ℚ` (binary rounding of `f64`
is abstracted), `Decimal` likewise, `Timestamp` an integer encoding of the
parsed date-time. -/
inductive Value where
  | Bool (b : Bool)
  | Int (i : IonInt)
  | Float (q : ℚ)
  | Decimal (q : ℚ)
  | String (s : String)
  | Timestamp (t : Int)
deriving DecidableEq, Repr

/-- ion-rs `types::IonType`, restricted to the kinds above. -/
inductive IonType where
  | bool | int | float | decimal | timestamp | string
deriving DecidableEq, Repr

/-- `Value::ion_type()`. -/
def Value.ion_type : Value → IonType
  | .Bool _ => .bool
  | .Int _ => .int
  | .Float _ => .float
  | .Decimal _ => .decimal
  | .String _ => .string
  | .Timestamp _ => .timestamp

/-- Rank of an ion type in the fixed Ion type order (null < bool < int <
float < decimal < timestamp < symbol < string < ...); used by the total
cross-kind `IonData` ordering. -/
def IonType.rank : IonType → Nat
  | .bool => 1
  | .int => 2
  | .float => 3
  | .decimal => 4
  | .timestamp => 5
  | .string => 7

/-- The distinct failures the evaluator can produce (all are `anyhow`
errors in the source; we keep the failure site):
* `parseError` — a `?` on a failed text-to-value parse (Rust `FromStr`);
  the spec calls these `CoercionError` (in `coerce_value`) and groups the
  `$N` digit-parse failure of `resolve_var` with `UnresolvedVariable`;
* `noValue` — `anyhow!("No value")` (failed variable resolution or an
  unsupported node: the spec's `FieldOutOfRange` / `UnresolvedVariable` /
  unsupported-`Predicate` failures);
* `errorValue` — `anyhow!("Error value!")` (non-Bool operand of `&&`/`||`:
  the spec's `TypeMismatch`). -/
inductive EvalError where
  | parseError
  | noValue
  | errorValue
deriving DecidableEq, Repr

/-- Numeric value of a list of ASCII digit characters (the accumulator loop
all the Rust integer `FromStr` implementations use). -/
def digitsToNat (l : List Char) : Nat :=
  l.foldl (fun acc c => acc * 10 + (c.toNat - 48)) 0

/-- Strip one optional leading `+` sign (the sign handling of Rust's
unsigned `FromStr`). -/
def stripPlus : List Char → List Char
  | '+' :: t => t
  | s => s

/-- Rust `usize::from_str`: an optional leading `+` sign followed by one or
more ASCII digits, rejecting values above `usize::MAX = 2^64 - 1`. -/
def parseUsize (s : List Char) : Option Nat :=
  let t := stripPlus s
  if t = [] then none
  else if t.all Char.isDigit then
    if digitsToNat t < 2 ^ 64 then some (digitsToNat t) else none
  else none

/-- num-bigint `BigInt::from_str`: an optional leading `+` or `-` sign
followed by one or more ASCII digits; arbitrary precision. -/
def parseBigInt (s : List Char) : Option Int :=
  match s with
  | '-' :: t =>
    if t ≠ [] ∧ t.all Char.isDigit then some (-(digitsToNat t : Int)) else none
  | '+' :: t =>
    if t ≠ [] ∧ t.all Char.isDigit then some (digitsToNat t : Int) else none
  | t =>
    if t ≠ [] ∧ t.all Char.isDigit then some (digitsToNat t : Int) else none

/-- Rust `bool::from_str`: exactly the texts `true` and `false`. -/
def parseRustBool (s : List Char) : Option Bool :=
  if s = "true".toList then some true
  else if s = "false".toList then some false
  else none

/-- Exact value of `sign digits [. digits]`, the common core of the external
decimal readers.  Returns the numerator over `10 ^ scale`. -/
def decimalCore (s : List Char) : Option ℚ :=
  let (sign, t) : ℚ × List Char := match s with
    | '-' :: t => (-1, t)
    | '+' :: t => (1, t)
    | t => (1, t)
  let intPart := t.takeWhile Char.isDigit
  let rest := t.drop intPart.length
  match rest with
  | [] =>
    if intPart = [] then none
    else some (sign * (digitsToNat intPart : ℚ))
  | '.' :: frac =>
    if intPart = [] ∨ frac = [] ∨ ¬ frac.all Char.isDigit then none
    else some (sign * ((digitsToNat intPart : ℚ) +
      (digitsToNat frac : ℚ) / ((10 : ℚ) ^ frac.length)))
  | _ => none

/-- Models the external `f64` text reader (`str::parse::<f64>`, spec
section 6 collaborator): exact decimal reading; exponent forms, binary
rounding and the special values are abstracted.  No claim evaluates a
float payload. -/
def parseF64 (s : List Char) : Option ℚ := decimalCore s

/-- Models the external `BigDecimal::from_str` reader (spec section 6
collaborator): exact decimal reading, exponent forms abstracted.  No claim
evaluates a decimal payload. -/
def parseBigDecimal (s : List Char) : Option ℚ := decimalCore s

/-- Models the external chrono RFC 3339 date-time-with-offset reader (spec
section 6 collaborator): checks the `YYYY-MM-DDTHH:MM:SS±HH:MM` shape and
returns an injective integer encoding of the digits.  No claim evaluates a
timestamp payload. -/
def parseTimestampText (s : List Char) : Option Int :=
  if s.length = 25 then
    let digitAt (i : Nat) : Bool := (s.getD i ' ').isDigit
    let is (i : Nat) (c : Char) : Bool := s.getD i ' ' = c
    if digitAt 0 ∧ digitAt 1 ∧ digitAt 2 ∧ digitAt 3 ∧ is 4 '-' ∧
       digitAt 5 ∧ digitAt 6 ∧ is 7 '-' ∧ digitAt 8 ∧ digitAt 9 ∧
       is 10 'T' ∧ digitAt 11 ∧ digitAt 12 ∧ is 13 ':' ∧ digitAt 14 ∧
       digitAt 15 ∧ is 16 ':' ∧ digitAt 17 ∧ digitAt 18 ∧
       (is 19 '+' ∨ is 19 '-') ∧ digitAt 20 ∧ digitAt 21 ∧ is 22 ':' ∧
       digitAt 23 ∧ digitAt 24 then
      some (digitsToNat (s.filter Char.isDigit) * 2 +
        (if s.getD 19 ' ' = '-' then 1 else 0))
    else none
  else none

/-! ## Evaluator (`hawk-core/src/source/mod.rs`) -/

/-- `resolve_var(item, expr)`: a `Variable` whose path is `$` followed by a
Rust-`usize`-parseable suffix `N` with `1 ≤ N ≤ item.len()` resolves to the
`N`-th field (1-based); a failed suffix parse propagates the parse error
(`?`), everything else falls through to `Err(anyhow!("No value"))`.
`starts_with('$')` + `strip_prefix('$')` is rendered as a head match. -/
def resolve_var (item : List Value) (e : Expr) : Except EvalError Value :=
  match e with
  | .Variable v =>
    match v.toList with
    | '$' :: rest =>
      match parseUsize rest with
      | none => .error .parseError
      | some field_number =>
        if 1 ≤ field_number ∧ field_number ≤ item.length then
          match item.get? (field_number - 1) with
          | some el => .ok el
          | none => .error .noValue
        else .error .noValue
    | _ => .error .noValue
  | _ => .error .noValue

/-- `ValueImplicitConversion::coerce_value(value, ion_type)`: the directed
coercion table.  Every pair outside the table falls through to the
`_ => Ok(Cow::Borrowed(value))` arm, i.e. the value is returned unchanged
(only a failing text parse produces an error). -/
def coerce_value (value : Value) (ion_type : IonType) : Except EvalError Value :=
  match value, ion_type with
  | .String v, .bool =>
    match parseRustBool v.toList with
    | some b => .ok (.Bool b)
    | none => .error .parseError
  | .String v, .int =>
    match parseBigInt v.toList with
    | some n => .ok (.Int (.bigInt n))
    | none => .error .parseError
  | .String v, .float =>
    match parseF64 v.toList with
    | some q => .ok (.Float q)
    | none => .error .parseError
  | .String v, .decimal =>
    match parseBigDecimal v.toList with
    | some q => .ok (.Decimal q)
    | none => .error .parseError
  | .String v, .timestamp =>
    match parseTimestampText v.toList with
    | some t => .ok (.Timestamp t)
    | none => .error .parseError
  | .Int (.i64 v), .float => .ok (.Float (v : ℚ))
  | .Int (.i64 v), .decimal => .ok (.Decimal (v : ℚ))
  | .Int (.bigInt v), .decimal => .ok (.Decimal (v : ℚ))
  | _, _ => .ok value

/-- `ValueImplicitConversion::coerce(lhs, rhs)`: when the ion types differ,
coerce each side toward the other's type (left first); otherwise return the
pair unchanged. -/
def coerce (lhs rhs : Value) : Except EvalError (Value × Value) :=
  if lhs.ion_type ≠ rhs.ion_type then
    match coerce_value lhs rhs.ion_type with
    | .error e => .error e
    | .ok l =>
      match coerce_value rhs lhs.ion_type with
      | .error e => .error e
      | .ok r => .ok (l, r)
  else .ok (lhs, rhs)

/-- ion-rs `PartialEq` on `element::Value` (used by `==`/`!=` in
`resolve_cond`): variant-wise, with numeric equality across the two `Int`
representations. -/
def veq : Value → Value → Bool
  | .Bool a, .Bool b => a = b
  | .Int a, .Int b => a.toInt = b.toInt
  | .Float a, .Float b => a = b
  | .Decimal a, .Decimal b => a = b
  | .String a, .String b => a = b
  | .Timestamp a, .Timestamp b => a = b
  | _, _ => false

/-- Rust `Ord::cmp` on a linearly ordered payload type. -/
def cmpLin {α : Type} [LinearOrder α] (a b : α) : Ordering :=
  if a < b then .lt else if a = b then .eq else .gt

/-- Lexicographic comparison of lists by an element comparison. -/
def cmpList {α : Type} (c : α → α → Ordering) : List α → List α → Ordering
  | [], [] => .eq
  | [], _ :: _ => .lt
  | _ :: _, [] => .gt
  | a :: as_, b :: bs =>
    match c a b with
    | .eq => cmpList c as_ bs
    | o => o

/-- Rust `Ord` on string slices: lexicographic on the character sequence
(for UTF-8, byte order and code-point order agree). -/
def cmpString (a b : String) : Ordering :=
  cmpList cmpLin a.toList b.toList

/-- The total cross-kind `IonData` ordering used by the `<`, `<=`, `>`, `>=`
branches of `resolve_cond` (an external-collaborator function, spec
section 6): values are ranked first by their Ion type, then compared by
value within a type. -/
def ionCompare (a b : Value) : Ordering :=
  match a, b with
  | .Bool x, .Bool y => cmpLin x y
  | .Int x, .Int y => cmpLin x.toInt y.toInt
  | .Float x, .Float y => cmpLin x y
  | .Decimal x, .Decimal y => cmpLin x y
  | .String x, .String y => cmpString x y
  | .Timestamp x, .Timestamp y => cmpLin x y
  | _, _ => cmpLin a.ion_type.rank b.ion_type.rank

mutual

/-- `resolve_expr(item, expr)`: literals resolve to themselves, variables via
`resolve_var`, everything else via `resolve_cond`.  Fuelled rendering of the
mutual recursion; fuel exhaustion (unreachable for fuel above the expression
depth) reports the generic "No value" error. -/
def resolve_expr_f : Nat → List Value → Expr → Except EvalError Value
  | 0, _, _ => .error .noValue
  | f + 1, item, e =>
    match e with
    | .Variable v => resolve_var item (.Variable v)
    | .Integer v => .ok (.Int (.i64 v))
    | .String v => .ok (.String v)
    | _ => resolve_cond_f f item e

/-- `resolve_cond(item, expr)`: the comparison and logical branches.
`Equal` coerces then compares with `PartialEq`; `NotEqual` compares the raw
resolved values with `PartialEq` (no coercion in the source); the four
ordering operators compare via the total `IonData` order; `And`/`Or` demand
two `Bool`s and otherwise produce `anyhow!("Error value!")`; all remaining
node shapes produce `anyhow!("No value")`. -/
def resolve_cond_f : Nat → List Value → Expr → Except EvalError Value
  | 0, _, _ => .error .noValue
  | f + 1, item, e =>
    match e with
    | .Equal lhs rhs =>
      match resolve_expr_f f item lhs with
      | .error e => .error e
      | .ok l =>
        match resolve_expr_f f item rhs with
        | .error e => .error e
        | .ok r =>
          match coerce l r with
          | .error e => .error e
          | .ok (l2, r2) => .ok (.Bool (veq l2 r2))
    | .NotEqual lhs rhs =>
      match resolve_expr_f f item lhs with
      | .error e => .error e
      | .ok l =>
        match resolve_expr_f f item rhs with
        | .error e => .error e
        | .ok r => .ok (.Bool (!veq l r))
    | .LessThan lhs rhs =>
      match resolve_expr_f f item lhs with
      | .error e => .error e
      | .ok l =>
        match resolve_expr_f f item rhs with
        | .error e => .error e
        | .ok r => .ok (.Bool (ionCompare l r = .lt))
    | .LessThanOrEqual lhs rhs =>
      match resolve_expr_f f item lhs with
      | .error e => .error e
      | .ok l =>
        match resolve_expr_f f item rhs with
        | .error e => .error e
        | .ok r => .ok (.Bool (¬ ionCompare l r = .gt))
    | .GreaterThan lhs rhs =>
      match resolve_expr_f f item lhs with
      | .error e => .error e
      | .ok l =>
        match resolve_expr_f f item rhs with
        | .error e => .error e
        | .ok r => .ok (.Bool (ionCompare l r = .gt))
    | .GreaterThanOrEqual lhs rhs =>
      match resolve_expr_f f item lhs with
      | .error e => .error e
      | .ok l =>
        match resolve_expr_f f item rhs with
        | .error e => .error e
        | .ok r => .ok (.Bool (¬ ionCompare l r = .lt))
    | .And lhs rhs =>
      match resolve_expr_f f item lhs with
      | .error e => .error e
      | .ok l =>
        match resolve_expr_f f item rhs with
        | .error e => .error e
        | .ok r =>
          match l, r with
          | .Bool a, .Bool b => .ok (.Bool (a && b))
          | _, _ => .error .errorValue
    | .Or lhs rhs =>
      match resolve_expr_f f item lhs with
      | .error e => .error e
      | .ok l =>
        match resolve_expr_f f item rhs with
        | .error e => .error e
        | .ok r =>
          match l, r with
          | .Bool a, .Bool b => .ok (.Bool (a || b))
          | _, _ => .error .errorValue
    | _ => .error .noValue

end

/-- Depth of an expression tree (bounds the recursion depth of the
evaluator). -/
def Expr.depth : Expr → Nat
  | .Integer _ => 1
  | .String _ => 1
  | .Variable _ => 1
  | .Equal l r => max l.depth r.depth + 1
  | .NotEqual l r => max l.depth r.depth + 1
  | .LessThan l r => max l.depth r.depth + 1
  | .LessThanOrEqual l r => max l.depth r.depth + 1
  | .GreaterThan l r => max l.depth r.depth + 1
  | .GreaterThanOrEqual l r => max l.depth r.depth + 1
  | .And l r => max l.depth r.depth + 1
  | .Or l r => max l.depth r.depth + 1
  | .Predicate _ e => e.depth + 1

/-- `resolve_expr` with fuel ample for the expression's depth. -/
def resolve_expr (item : List Value) (e : Expr) : Except EvalError Value :=
  resolve_expr_f (2 * e.depth + 2) item e

/-- `resolve_cond` with fuel ample for the expression's depth. -/
def resolve_cond (item : List Value) (e : Expr) : Except EvalError Value :=
  resolve_cond_f (2 * e.depth + 2) item e

/-! ## Parser (`hawk-parser/src/lib.rs`, nom combinators)

The parsers take the remaining input as a `List Char` and return
`none` (nom `Err`) or `some (remaining, result)`.  `alt` backtracks on
failure and `opt`/`many0` backtrack a failed iteration, exactly as the nom
`complete` combinators do. -/

/-- nom `multispace0`: drop leading spaces, tabs, carriage returns and line
feeds. -/
def multispace0 (i : List Char) : List Char :=
  i.dropWhile Char.isWhitespace

/-- nom `tag(t)`: the input must start with `t`; returns the rest. -/
def tagP (t : List Char) (i : List Char) : Option (List Char) :=
  if t.isPrefixOf i then some (i.drop t.length) else none

/-- nom `digit1`: one or more ASCII digits, taken maximally. -/
def digit1 (i : List Char) : Option (List Char × List Char) :=
  match i.takeWhile Char.isDigit with
  | [] => none
  | ds => some (i.drop ds.length, ds)

/-- nom `alpha1`: one or more ASCII letters, taken maximally. -/
def alpha1 (i : List Char) : Option (List Char × List Char) :=
  match i.takeWhile Char.isAlpha with
  | [] => none
  | ls => some (i.drop ls.length, ls)

/-- `parse_number`: `map_res(digit1, |s| s.parse().map(Expr::Integer))` —
the digits must fit a Rust `i64`, otherwise the whole parser fails. -/
def parse_number (i : List Char) : Option (List Char × Expr) :=
  match digit1 i with
  | none => none
  | some (rest, ds) =>
    if digitsToNat ds ≤ 9223372036854775807 then
      some (rest, .Integer (digitsToNat ds : Int))
    else none

/-- Continuation characters of an identifier: alphanumeric, `_` or `-`
(`is_alphanumeric` is Unicode in the source; ASCII suffices for every
claim). -/
def identRest (c : Char) : Bool := c.isAlphanum || c = '_' || c = '-'

/-- `parse_identifier`: `recognize(pair(alt((alpha1, tag("_"), tag("$"))),
opt(take_while(alnum | _ | -))))`. -/
def parse_identifier (i : List Char) : Option (List Char × List Char) :=
  let head : Option (List Char × List Char) :=
    match alpha1 i with
    | some r => some r
    | none =>
      match i with
      | c :: rest => if c = '_' ∨ c = '$' then some (rest, [c]) else none
      | [] => none
  match head with
  | none => none
  | some (rest, fst) =>
    let more := rest.takeWhile identRest
    some (rest.drop more.length, fst ++ more)

/-- The `( "." identifier )*` tail of `separated_list1(tag("."),
parse_identifier)`; a dot not followed by an identifier is left unconsumed
(nom backtracks the separator). -/
def path_rest : Nat → List Char → List (List Char) × List Char
  | 0, i => ([], i)
  | f + 1, i =>
    match i with
    | '.' :: rest =>
      match parse_identifier rest with
      | some (rest2, idt) =>
        let (more, fin) := path_rest f rest2
        (idt :: more, fin)
      | none => ([], i)
    | _ => ([], i)

/-- Join path segments with `.` (the `parts.join(".")` of
`parse_variable_path`). -/
def joinParts (fst : List Char) (more : List (List Char)) : List Char :=
  fst ++ more.foldl (fun acc p => acc ++ ('.' :: p)) []

/-- `parse_variable_path`: `map(separated_list1(tag("."), parse_identifier),
|parts| parts.join("."))`. -/
def parse_variable_path_f (f : Nat) (i : List Char) :
    Option (List Char × String) :=
  match parse_identifier i with
  | none => none
  | some (rest, fst) =>
    let (more, fin) := path_rest f rest
    some (fin, String.mk (joinParts fst more))

mutual

/-- `parse_predicate`: `delimited(preceded(multispace0, tag("[")),
parse_expr, preceded(multispace0, tag("]")))`. -/
def parse_predicate_f : Nat → List Char → Option (List Char × Expr)
  | 0, _ => none
  | f + 1, i =>
    match tagP ['['] (multispace0 i) with
    | none => none
    | some rest =>
      match parse_expr_f f rest with
      | none => none
      | some (rest2, e) =>
        match tagP [']'] (multispace0 rest2) with
        | none => none
        | some rest3 => some (rest3, e)

/-- `parse_variable_with_predicate`: a variable path followed by an optional
bracketed predicate; with the predicate present the result is a `Predicate`
node, otherwise a `Variable` node. -/
def parse_variable_with_predicate_f : Nat → List Char → Option (List Char × Expr)
  | 0, _ => none
  | f + 1, i =>
    match parse_variable_path_f f i with
    | none => none
    | some (rest, var_path) =>
      match parse_predicate_f f rest with
      | some (rest2, pred) => some (rest2, .Predicate var_path pred)
      | none => some (rest, .Variable var_path)

/-- `parse_atom`: `alt((parse_number, parse_variable_with_predicate,
delimited(preceded(multispace0, tag("(")), parse_expr,
preceded(multispace0, tag(")")))))`. -/
def parse_atom_f : Nat → List Char → Option (List Char × Expr)
  | 0, _ => none
  | f + 1, i =>
    match parse_number i with
    | some r => some r
    | none =>
      match parse_variable_with_predicate_f f i with
      | some r => some r
      | none =>
        match tagP ['('] (multispace0 i) with
        | none => none
        | some rest =>
          match parse_expr_f f rest with
          | none => none
          | some (rest2, e) =>
            match tagP [')'] (multispace0 rest2) with
            | none => none
            | some rest3 => some (rest3, e)

/-- `parse_comparison`: an atom followed by an optional
`cmp_op atom` pair (operators tried in the source order `==`, `!=`, `<=`,
`>=`, `<`, `>`, each side of the operator preceded by `multispace0`); if
the operator or the right atom fails, the optional pair backtracks
entirely. -/
def parse_comparison_f : Nat → List Char → Option (List Char × Expr)
  | 0, _ => none
  | f + 1, i =>
    match parse_atom_f f i with
    | none => none
    | some (i1, left) =>
      let opRes : Option (List Char × (Expr → Expr → Expr)) :=
        let j := multispace0 i1
        match tagP ['=', '='] j with
        | some k => some (k, .Equal)
        | none =>
          match tagP ['!', '='] j with
          | some k => some (k, .NotEqual)
          | none =>
            match tagP ['<', '='] j with
            | some k => some (k, .LessThanOrEqual)
            | none =>
              match tagP ['>', '='] j with
              | some k => some (k, .GreaterThanOrEqual)
              | none =>
                match tagP ['<'] j with
                | some k => some (k, .LessThan)
                | none =>
                  match tagP ['>'] j with
                  | some k => some (k, .GreaterThan)
                  | none => none
      match opRes with
      | none => some (i1, left)
      | some (i2, op) =>
        match parse_atom_f f (multispace0 i2) with
        | none => some (i1, left)
        | some (i3, right) => some (i3, op left right)

/-- The `many0(preceded(multispace0, pair(tag("&&"),
preceded(multispace0, parse_comparison))))` loop of `parse_and`, fused with
the left fold into `And` nodes. -/
def and_rest_f : Nat → Expr → List Char → Option (List Char × Expr)
  | 0, _, _ => none
  | f + 1, acc, i =>
    match tagP ['&', '&'] (multispace0 i) with
    | none => some (i, acc)
    | some i2 =>
      match parse_comparison_f f (multispace0 i2) with
      | none => some (i, acc)
      | some (i3, e) => and_rest_f f (.And acc e) i3

/-- `parse_and`: left-associative fold of `&&`-separated comparisons. -/
def parse_and_f : Nat → List Char → Option (List Char × Expr)
  | 0, _ => none
  | f + 1, i =>
    match parse_comparison_f f i with
    | none => none
    | some (i1, first) => and_rest_f f first i1

/-- The `many0` loop of `parse_or`, fused with the left fold into `Or`
nodes. -/
def or_rest_f : Nat → Expr → List Char → Option (List Char × Expr)
  | 0, _, _ => none
  | f + 1, acc, i =>
    match tagP ['|', '|'] (multispace0 i) with
    | none => some (i, acc)
    | some i2 =>
      match parse_and_f f (multispace0 i2) with
      | none => some (i, acc)
      | some (i3, e) => or_rest_f f (.Or acc e) i3

/-- `parse_or`: left-associative fold of `||`-separated and-expressions. -/
def parse_or_f : Nat → List Char → Option (List Char × Expr)
  | 0, _ => none
  | f + 1, i =>
    match parse_and_f f i with
    | none => none
    | some (i1, first) => or_rest_f f first i1

/-- `parse_expr`: the grammar entry point. -/
def parse_expr_f : Nat → List Char → Option (List Char × Expr)
  | 0, _ => none
  | f + 1, i => parse_or_f f i

end

/-- Fuel ample for any parse of `i`: the descent chains of the grammar
consume at most eight fuel units per input character. -/
def parseFuel (i : List Char) : Nat := 8 * i.length + 8

/-- `parse_expr` on a string, with ample fuel. -/
def parse_expr_s (s : String) : Option (List Char × Expr) :=
  parse_expr_f (parseFuel s.toList) s.toList

/-- `parse_atom` on a string, with ample fuel. -/
def parse_atom_s (s : String) : Option (List Char × Expr) :=
  parse_atom_f (parseFuel s.toList) s.toList

/-- `parse_variable_with_predicate` on a string, with ample fuel. -/
def parse_variable_with_predicate_s (s : String) : Option (List Char × Expr) :=
  parse_variable_with_predicate_f (parseFuel s.toList) s.toList

deriving instance DecidableEq for Except

/-! ## Specification-side predicates -/

/-- A non-empty, all-ASCII-digit character list. -/
def allDigits (s : List Char) : Prop := s ≠ [] ∧ ∀ c ∈ s, c.isDigit

/-- The character list `s` denotes the position `n` in the syntax Rust's
`usize::from_str` accepts: one or more digits with an optional leading `+`
sign, value within `usize` range. -/
def denotesUsize (s : List Char) (n : Nat) : Prop :=
  n < 2 ^ 64 ∧
    ((allDigits s ∧ digitsToNat s = n) ∨
      ∃ t, s = '+' :: t ∧ allDigits t ∧ digitsToNat t = n)

/-- A directed coercion rule exists for this kind pair in the
`coerce_value` table (spec section 4.2): `String` to each other kind,
`Int` to `Float` and `Int` to `Decimal`. -/
def coercionRule : IonType → IonType → Bool
  | .string, .bool => true
  | .string, .int => true
  | .string, .float => true
  | .string, .decimal => true
  | .string, .timestamp => true
  | .int, .float => true
  | .int, .decimal => true
  | _, _ => false

/-! ## Helper lemmas -/

theorem parseUsize_core_eq_some_iff (t : List Char) (n : Nat) :
    ((if t = [] then none
      else if t.all Char.isDigit then
        if digitsToNat t < 2 ^ 64 then some (digitsToNat t) else none
      else none) = some n) ↔
      (allDigits t ∧ digitsToNat t = n) ∧ n < 2 ^ 64 := by
  split_ifs with h1 h2 h3
  · simp [allDigits, h1]
  · simp only [Option.some.injEq]
    constructor
    · rintro rfl
      exact ⟨⟨⟨h1, (List.all_eq_true.mp h2 · ·)⟩, rfl⟩, h3⟩
    · rintro ⟨⟨_, rfl⟩, _⟩
      rfl
  · constructor
    · rintro ⟨⟩
    · rintro ⟨⟨_, rfl⟩, hb⟩
      exact absurd hb h3
  · constructor
    · rintro ⟨⟩
    · rintro ⟨⟨⟨hne, hall⟩, rfl⟩, _⟩
      exact absurd (List.all_eq_true.mpr hall) h2

theorem stripPlus_cons_of_ne (c : Char) (t : List Char) (hc : c ≠ '+') :
    stripPlus (c :: t) = c :: t := by
  unfold stripPlus
  split
  · rename_i h
    injection h with h1 _
    exact absurd h1 hc
  · rfl

theorem parseUsize_eq_some_iff (s : List Char) (n : Nat) :
    parseUsize s = some n ↔ denotesUsize s n := by
  rcases s with _ | ⟨c, t⟩
  · simp [parseUsize, stripPlus, denotesUsize, allDigits]
  · by_cases hc : c = '+'
    · subst hc
      simp only [parseUsize, stripPlus]
      rw [parseUsize_core_eq_some_iff]
      unfold denotesUsize
      constructor
      · rintro ⟨hd, hb⟩
        exact ⟨hb, Or.inr ⟨t, rfl, hd.1, hd.2⟩⟩
      · rintro ⟨hb, hcase | ⟨t2, ht2, hall, hval⟩⟩
        · exact absurd (hcase.1.2 '+' (by simp)) (by decide)
        · cases ht2
          exact ⟨⟨hall, hval⟩, hb⟩
    · simp only [parseUsize, stripPlus_cons_of_ne c t hc]
      rw [parseUsize_core_eq_some_iff]
      unfold denotesUsize
      constructor
      · rintro ⟨hd, hb⟩
        exact ⟨hb, Or.inl hd⟩
      · rintro ⟨hb, hd | ⟨t2, ht2, hall, hval⟩⟩
        · exact ⟨hd, hb⟩
        · injection ht2 with h1 _
          exact absurd h1 hc

theorem coerce_value_passthrough (v : Value) (t : IonType)
    (h : coercionRule v.ion_type t = false) : coerce_value v t = .ok v := by
  rcases v with b | i | q | q | s | ts
  case Int =>
    rcases i with x | x <;> cases t <;>
      simp_all [coercionRule, coerce_value, Value.ion_type]
  all_goals cases t <;> simp_all [coercionRule, coerce_value, Value.ion_type]

theorem veq_false_of_kind_ne (a b : Value) (h : a.ion_type ≠ b.ion_type) :
    veq a b = false := by
  cases a <;> cases b <;> simp_all [veq, Value.ion_type]

theorem resolve_var_dollar_none (item : List Value) (path : String)
    (rest : List Char) (hp : path.toList = '$' :: rest)
    (hpu : parseUsize rest = none) :
    resolve_var item (.Variable path) = .error .parseError := by
  simp only [resolve_var, hp, hpu]

theorem resolve_var_dollar_in (item : List Value) (path : String)
    (rest : List Char) (n : Nat) (el : Value) (hp : path.toList = '$' :: rest)
    (hpu : parseUsize rest = some n) (hr : 1 ≤ n ∧ n ≤ item.length)
    (hel : item.get? (n - 1) = some el) :
    resolve_var item (.Variable path) = .ok el := by
  simp only [resolve_var, hp, hpu, if_pos hr, hel]

theorem resolve_var_dollar_out (item : List Value) (path : String)
    (rest : List Char) (n : Nat) (hp : path.toList = '$' :: rest)
    (hpu : parseUsize rest = some n) (hr : ¬ (1 ≤ n ∧ n ≤ item.length)) :
    resolve_var item (.Variable path) = .error .noValue := by
  simp only [resolve_var, hp, hpu, if_neg hr]

theorem resolve_var_nil (item : List Value) (path : String)
    (hp : path.toList = []) :
    resolve_var item (.Variable path) = .error .noValue := by
  simp only [resolve_var, hp]

theorem resolve_var_not_dollar (item : List Value) (path : String) (c : Char)
    (rest : List Char) (hp : path.toList = c :: rest) (hc : c ≠ '$') :
    resolve_var item (.Variable path) = .error .noValue := by
  simp only [resolve_var, hp]
  split
  · rename_i heq
    injection heq with h1 _
    exact absurd h1 hc
  · rfl

theorem cmpLin_self {α : Type} [LinearOrder α] (a : α) : cmpLin a a = .eq := by
  simp [cmpLin]

theorem cmpLin_swap {α : Type} [LinearOrder α] (a b : α) :
    cmpLin a b = (cmpLin b a).swap := by
  rcases lt_trichotomy a b with h | h | h
  · rw [cmpLin, if_pos h, cmpLin, if_neg (not_lt_of_gt h), if_neg h.ne']
    rfl
  · subst h
    simp [cmpLin, Ordering.swap]
  · rw [cmpLin, if_neg (not_lt_of_gt h), if_neg (ne_of_gt h), cmpLin, if_pos h]
    rfl

theorem cmpList_self {α : Type} (c : α → α → Ordering)
    (hc : ∀ x, c x x = .eq) (l : List α) : cmpList c l l = .eq := by
  induction l with
  | nil => rfl
  | cons x xs ih => simp [cmpList, hc x, ih]

theorem cmpList_swap {α : Type} (c : α → α → Ordering)
    (hc : ∀ x y, c x y = (c y x).swap) :
    ∀ a b : List α, cmpList c a b = (cmpList c b a).swap := by
  intro a
  induction a with
  | nil =>
    intro b
    cases b <;> rfl
  | cons x xs ih =>
    intro b
    cases b with
    | nil => rfl
    | cons y ys =>
      simp only [cmpList, hc x y]
      cases c y x <;> simp [Ordering.swap, ih ys]

theorem cmpString_self (s : String) : cmpString s s = .eq :=
  cmpList_self cmpLin (fun x => cmpLin_self x) s.toList

theorem cmpString_swap (a b : String) : cmpString a b = (cmpString b a).swap :=
  cmpList_swap cmpLin (fun x y => cmpLin_swap x y) a.toList b.toList

theorem ionCompare_self (v : Value) : ionCompare v v = .eq := by
  cases v <;>
    simp [ionCompare, cmpLin_self, cmpString_self]

theorem ionCompare_swap (a b : Value) : ionCompare a b = (ionCompare b a).swap := by
  cases a <;> cases b <;>
    simp only [ionCompare] <;>
    first
      | exact cmpLin_swap _ _
      | exact cmpString_swap _ _

/-! ## Claims -/

/-- **C5, counterexample.**  The claim states that variable resolution
succeeds only for paths of the form `$` followed by digits.  The code parses
the suffix with Rust `usize::from_str`, which also accepts a leading `+`
sign: the path `$+1` (not `$` followed by digits) resolves successfully
against a one-field record. -/
theorem resolve_var_plus_sign_cex :
    resolve_var [Value.Bool true] (.Variable "$+1") = .ok (.Bool true) ∧
    ¬ (∀ c ∈ "+1".toList, c.isDigit) :=
  ⟨rfl, by decide⟩

/-- **C5, amended.**  Variable resolution succeeds if and only if the path is
`$` followed by a suffix in Rust `usize` syntax (optional leading `+` sign,
then one or more digits, value below `2^64`) denoting `N` with
`1 ≤ N ≤ field_count`, in which case it returns the `N`-th field (1-based).
A `$`-prefixed path whose suffix is not `usize` syntax fails with the digit
parse error; a denoted position outside the valid range, and any path not
starting with `$`, fail with the generic "No value" error (the code does not
distinguish `FieldOutOfRange` from `UnresolvedVariable`). -/
theorem resolve_var_positional_amended (item : List Value) (path : String) :
    (∀ v, resolve_var item (.Variable path) = .ok v ↔
      ∃ rest n, path.toList = '$' :: rest ∧ denotesUsize rest n ∧
        1 ≤ n ∧ n ≤ item.length ∧ item.get? (n - 1) = some v) ∧
    ((∀ rest, path.toList ≠ '$' :: rest) →
      resolve_var item (.Variable path) = .error .noValue) ∧
    (∀ rest, path.toList = '$' :: rest → (∀ n, ¬ denotesUsize rest n) →
      resolve_var item (.Variable path) = .error .parseError) ∧
    (∀ rest n, path.toList = '$' :: rest → denotesUsize rest n →
      ¬ (1 ≤ n ∧ n ≤ item.length) →
      resolve_var item (.Variable path) = .error .noValue) := by
  rcases hp : path.toList with _ | ⟨c, rest⟩
  · refine ⟨?_, ?_, ?_, ?_⟩
    · intro v
      rw [resolve_var_nil item path hp]
      constructor
      · rintro ⟨⟩
      · rintro ⟨rest, n, h, _⟩
        cases h
    · intro _
      exact resolve_var_nil item path hp
    · intro rest h _
      cases h
    · intro rest n h _ _
      cases h
  · by_cases hc : c = '$'
    · subst hc
      cases hpu : parseUsize rest with
      | none =>
        have hnd : ∀ n, ¬ denotesUsize rest n := by
          intro n hd
          rw [← parseUsize_eq_some_iff] at hd
          rw [hpu] at hd
          cases hd
        refine ⟨?_, ?_, ?_, ?_⟩
        · intro v
          rw [resolve_var_dollar_none item path rest hp hpu]
          constructor
          · rintro ⟨⟩
          · rintro ⟨rest2, n, hp2, hd, _⟩
            injection hp2 with _ h2
            subst h2
            exact absurd hd (hnd n)
        · intro h
          exact absurd rfl (h rest)
        · intro rest2 hp2 _
          injection hp2 with _ h2
          subst h2
          exact resolve_var_dollar_none item path rest hp hpu
        · intro rest2 n hp2 hd _
          injection hp2 with _ h2
          subst h2
          exact absurd hd (hnd n)
      | some fn =>
        have hdfn : denotesUsize rest fn := (parseUsize_eq_some_iff rest fn).mp hpu
        have huniq : ∀ n, denotesUsize rest n → n = fn := by
          intro n hd
          have h4 := (parseUsize_eq_some_iff rest n).mpr hd
          rw [hpu] at h4
          injection h4 with h5
          exact h5.symm
        by_cases hrange : 1 ≤ fn ∧ fn ≤ item.length
        · have hlt : fn - 1 < item.length := by omega
          obtain ⟨el, hel⟩ : ∃ el, item.get? (fn - 1) = some el :=
            ⟨item.get ⟨fn - 1, hlt⟩, List.get?_eq_get hlt⟩
          refine ⟨?_, ?_, ?_, ?_⟩
          · intro v
            rw [resolve_var_dollar_in item path rest fn el hp hpu hrange hel]
            constructor
            · rintro ⟨⟩
              exact ⟨rest, fn, rfl, hdfn, hrange.1, hrange.2, hel⟩
            · rintro ⟨rest2, n, hp2, hd, _, _, hg⟩
              injection hp2 with _ h2
              subst h2
              rw [huniq n hd] at hg
              rw [hel] at hg
              injection hg with h3
              rw [h3]
          · intro h
            exact absurd rfl (h rest)
          · intro rest2 hp2 hno
            injection hp2 with _ h2
            subst h2
            exact absurd hdfn (hno fn)
          · intro rest2 n hp2 hd hr
            injection hp2 with _ h2
            subst h2
            rw [huniq n hd] at hr
            exact absurd hrange hr
        · refine ⟨?_, ?_, ?_, ?_⟩
          · intro v
            rw [resolve_var_dollar_out item path rest fn hp hpu hrange]
            constructor
            · rintro ⟨⟩
            · rintro ⟨rest2, n, hp2, hd, h1, h2, _⟩
              injection hp2 with _ h2'
              subst h2'
              rw [huniq n hd] at h1 h2
              exact absurd ⟨h1, h2⟩ hrange
          · intro h
            exact absurd rfl (h rest)
          · intro rest2 hp2 hno
            injection hp2 with _ h2
            subst h2
            exact absurd hdfn (hno fn)
          · intro rest2 n hp2 _ _
            injection hp2 with _ h2
            subst h2
            exact resolve_var_dollar_out item path rest fn hp hpu hrange
    · refine ⟨?_, ?_, ?_, ?_⟩
      · intro v
        rw [resolve_var_not_dollar item path c rest hp hc]
        constructor
        · rintro ⟨⟩
        · rintro ⟨rest2, n, hp2, _⟩
          injection hp2 with h1 _
          exact absurd h1 hc
      · intro _
        exact resolve_var_not_dollar item path c rest hp hc
      · intro rest2 hp2 _
        injection hp2 with h1 _
        exact absurd h1 hc
      · intro rest2 n hp2 _ _
        injection hp2 with h1 _
        exact absurd h1 hc

/-- **C5, witness.**  The amended characterization applied at the concrete
record `[Bool true]` and path `$1`. -/
theorem resolve_var_positional_amended_witness :
    resolve_var [Value.Bool true] (.Variable "$1") = .ok (.Bool true) := by
  refine ((resolve_var_positional_amended [Value.Bool true] "$1").1 (.Bool true)).mpr ?_
  exact ⟨['1'], 1, by decide, ⟨by decide, Or.inl ⟨⟨by decide, by decide⟩, by decide⟩⟩,
    by decide, by decide, by decide⟩

/-- **C1, counterexample.**  The claim states that `Equal` on operands of
differing kinds with no coercion rule in either direction (its own example:
a Bool and an Int) fails and never silently returns `Bool(false)`.  In the
code, `coerce_value`'s catch-all arm returns such operands unchanged, and
the comparison of the unchanged pair yields `Bool(false)`: here the left
operand evaluates to `Bool(true)`, the right to `Int(1)`, and the whole
`Equal` evaluates to `Ok(Bool(false))`, not an error. -/
theorem equal_bool_int_silently_false :
    resolve_cond [] (.Equal (.Equal (.Integer 1) (.Integer 1)) (.Integer 1)) =
      .ok (.Bool false) := rfl

/-- **C1, amended.**  For operands that evaluate to `Value`s of differing
kinds for which no coercion rule exists in either direction, `Equal` does
not fail: `coerce_value` passes both operands through unchanged and the
comparison returns `Bool(false)` (values of differing kinds are never
`PartialEq`-equal); a coercion error arises only from a failing text
parse. -/
theorem equal_uncoercible_passthrough_false (f : Nat) (item : List Value)
    (lhs rhs : Expr) (lv rv : Value)
    (hl : resolve_expr_f f item lhs = .ok lv)
    (hr : resolve_expr_f f item rhs = .ok rv)
    (hk : lv.ion_type ≠ rv.ion_type)
    (h1 : coercionRule lv.ion_type rv.ion_type = false)
    (h2 : coercionRule rv.ion_type lv.ion_type = false) :
    resolve_cond_f (f + 1) item (.Equal lhs rhs) = .ok (.Bool false) := by
  simp only [resolve_cond_f, hl, hr]
  unfold coerce
  rw [if_pos hk, coerce_value_passthrough lv rv.ion_type h1,
    coerce_value_passthrough rv lv.ion_type h2]
  simp [veq_false_of_kind_ne lv rv hk]

/-- **C1, witness.**  The amended statement applied to the Bool/Int operand
pair of the counterexample. -/
theorem equal_uncoercible_passthrough_false_witness :
    resolve_cond_f 4 [] (.Equal (.Equal (.Integer 1) (.Integer 1)) (.Integer 1)) =
      .ok (.Bool false) :=
  equal_uncoercible_passthrough_false 3 [] (.Equal (.Integer 1) (.Integer 1))
    (.Integer 1) (.Bool true) (.Int (.i64 1)) (by decide) (by decide)
    (by decide) (by decide) (by decide)

/-- **C2, counterexample.**  The claim states that `NotEqual` applies the
same bidirectional coercion as `Equal`, so that `NotEqual` yields the
negation of `Equal` whenever `Equal` yields a `Bool`.  Against a record
whose field 1 holds the text `"5"`, `Equal($1, 5)` coerces and yields
`Bool(true)`, while `NotEqual($1, 5)` compares the raw `String`/`Int` pair
without coercion and also yields `Bool(true)` — not the negation
`Bool(false)`. -/
theorem notEqual_no_coercion_cex :
    resolve_cond [Value.String "5"] (.Equal (.Variable "$1") (.Integer 5)) =
      .ok (.Bool true) ∧
    resolve_cond [Value.String "5"] (.NotEqual (.Variable "$1") (.Integer 5)) =
      .ok (.Bool true) :=
  ⟨rfl, rfl⟩

/-- **C2, amended.**  `NotEqual` performs no coercion: it compares the two
resolved values directly with ion `PartialEq` and returns
`Bool(lhs ≠ rhs)`; it never raises a coercion error once both operands
resolve.  `NotEqual` agrees with the negation of `Equal` exactly when the
two operands share a kind (in which case `Equal` also compares without
coercing). -/
theorem notEqual_raw_comparison (f : Nat) (item : List Value)
    (lhs rhs : Expr) (lv rv : Value)
    (hl : resolve_expr_f f item lhs = .ok lv)
    (hr : resolve_expr_f f item rhs = .ok rv) :
    resolve_cond_f (f + 1) item (.NotEqual lhs rhs) = .ok (.Bool (!veq lv rv)) ∧
    (lv.ion_type = rv.ion_type →
      resolve_cond_f (f + 1) item (.Equal lhs rhs) = .ok (.Bool (veq lv rv))) := by
  constructor
  · simp only [resolve_cond_f, hl, hr]
  · intro hk
    simp only [resolve_cond_f, hl, hr]
    unfold coerce
    rw [if_neg (by simp [hk])]

/-- **C2, witness.**  The amended statement applied to the operand pair of
the counterexample: `NotEqual` on the raw `String "5"` / `Int 5` pair
returns `Bool(true)`. -/
theorem notEqual_raw_comparison_witness :
    resolve_cond_f 2 [Value.String "5"] (.NotEqual (.Variable "$1") (.Integer 5)) =
      .ok (.Bool true) := by
  have h := notEqual_raw_comparison 1 [Value.String "5"] (.Variable "$1")
    (.Integer 5) (.String "5") (.Int (.i64 5)) (by decide) (by decide)
  exact h.1.trans (by decide)

/-- **C3.**  The four ordering operators never invoke the coercion rules:
once both operands resolve, each returns `Ok(Bool _)` — never a coercion
error — determined by the single fixed total cross-kind order `ionCompare`
(Rust `Ord` on `IonData`): `<` tests `lt`, `<=` tests not-`gt`, `>` tests
`gt`, `>=` tests not-`lt`.  `ionCompare` is reflexively `eq` and
antisymmetric under swapping.  Concretely,
`LessThan(Integer 3, Integer 10)` evaluates to `Bool(true)` and `LessThan`
on strings `"b"`, `"a"` evaluates to `Bool(false)` (lexical order). -/
theorem ordering_total_cross_kind :
    (∀ f item lhs rhs lv rv,
      resolve_expr_f f item lhs = .ok lv →
      resolve_expr_f f item rhs = .ok rv →
      resolve_cond_f (f + 1) item (.LessThan lhs rhs) =
        .ok (.Bool (ionCompare lv rv = .lt)) ∧
      resolve_cond_f (f + 1) item (.LessThanOrEqual lhs rhs) =
        .ok (.Bool (¬ ionCompare lv rv = .gt)) ∧
      resolve_cond_f (f + 1) item (.GreaterThan lhs rhs) =
        .ok (.Bool (ionCompare lv rv = .gt)) ∧
      resolve_cond_f (f + 1) item (.GreaterThanOrEqual lhs rhs) =
        .ok (.Bool (¬ ionCompare lv rv = .lt))) ∧
    (∀ v, ionCompare v v = .eq) ∧
    (∀ a b, ionCompare a b = (ionCompare b a).swap) ∧
    resolve_cond [] (.LessThan (.Integer 3) (.Integer 10)) = .ok (.Bool true) ∧
    resolve_cond [] (.LessThan (.String "b") (.String "a")) = .ok (.Bool false) := by
  refine ⟨?_, ionCompare_self, ionCompare_swap, rfl, rfl⟩
  intro f item lhs rhs lv rv hl hr
  refine ⟨?_, ?_, ?_, ?_⟩ <;> simp only [resolve_cond_f, hl, hr]

/-- **C3, witness.**  The universal part applied to the concrete operands
`Integer 3` and `Integer 10`. -/
theorem ordering_total_cross_kind_witness :
    resolve_cond_f 2 [] (.LessThan (.Integer 3) (.Integer 10)) =
      .ok (.Bool true) := by
  have h := ordering_total_cross_kind.1 1 [] (.Integer 3) (.Integer 10)
    (.Int (.i64 3)) (.Int (.i64 10)) (by decide) (by decide)
  exact h.1.trans (by decide)

/-- **C6.**  `And` and `Or` evaluate both operands eagerly: an error in the
left operand propagates; an error in the right operand propagates even when
the left operand already resolved (including to a determining `Bool`); when
both operands resolve but are not both `Bool`, the result is the
type-mismatch failure (`anyhow!("Error value!")`).  Concretely,
`And(Integer 1, Integer 2)` fails with that type mismatch. -/
theorem and_or_eager_bool_only :
    (∀ f item lhs rhs e,
      resolve_expr_f f item lhs = .error e →
      resolve_cond_f (f + 1) item (.And lhs rhs) = .error e ∧
      resolve_cond_f (f + 1) item (.Or lhs rhs) = .error e) ∧
    (∀ f item lhs rhs lv e,
      resolve_expr_f f item lhs = .ok lv →
      resolve_expr_f f item rhs = .error e →
      resolve_cond_f (f + 1) item (.And lhs rhs) = .error e ∧
      resolve_cond_f (f + 1) item (.Or lhs rhs) = .error e) ∧
    (∀ f item lhs rhs lv rv,
      resolve_expr_f f item lhs = .ok lv →
      resolve_expr_f f item rhs = .ok rv →
      (∀ a b, ¬ (lv = .Bool a ∧ rv = .Bool b)) →
      resolve_cond_f (f + 1) item (.And lhs rhs) = .error .errorValue ∧
      resolve_cond_f (f + 1) item (.Or lhs rhs) = .error .errorValue) ∧
    resolve_cond [] (.And (.Integer 1) (.Integer 2)) = .error .errorValue := by
  refine ⟨?_, ?_, ?_, rfl⟩
  · intro f item lhs rhs e hl
    constructor <;> simp only [resolve_cond_f, hl]
  · intro f item lhs rhs lv e hl hr
    constructor <;> simp only [resolve_cond_f, hl, hr]
  · intro f item lhs rhs lv rv hl hr hnb
    constructor <;> simp only [resolve_cond_f, hl, hr] <;>
      cases lv <;> cases rv <;> first
        | rfl
        | exact absurd ⟨rfl, rfl⟩ (hnb _ _)

/-- **C6, witness.**  No short-circuiting: `Or` whose left operand resolves
to `Bool(true)` still propagates the right operand's resolution error. -/
theorem and_or_eager_bool_only_witness :
    resolve_cond_f 4 [] (.Or (.Equal (.Integer 1) (.Integer 1)) (.Variable "x")) =
      .error .noValue := by
  have h := and_or_eager_bool_only.2.1 3 [] (.Equal (.Integer 1) (.Integer 1))
    (.Variable "x") (.Bool true) .noValue (by decide) (by decide)
  exact h.2

/-- **C4.**  `&&` binds tighter than `||` and both fold left-associatively:
`a && b || c` parses to `Or(And(a,b), c)`, `a || b && c` to
`Or(a, And(b,c))`, and `a && b && c` to `And(And(a,b), c)`, each consuming
the whole input. -/
theorem parser_precedence_assoc :
    parse_expr_s "a && b || c" =
      some ([], .Or (.And (.Variable "a") (.Variable "b")) (.Variable "c")) ∧
    parse_expr_s "a || b && c" =
      some ([], .Or (.Variable "a") (.And (.Variable "b") (.Variable "c"))) ∧
    parse_expr_s "a && b && c" =
      some ([], .And (.And (.Variable "a") (.Variable "b")) (.Variable "c")) := by
  refine ⟨by decide, by decide, by decide⟩

theorem resolve_cond_f_pred (f : Nat) (item : List Value) (p : String)
    (pr : Expr) :
    resolve_cond_f f item (.Predicate p pr) = .error .noValue := by
  cases f <;> rfl

theorem resolve_expr_f_pred (f : Nat) (item : List Value) (p : String)
    (pr : Expr) :
    resolve_expr_f f item (.Predicate p pr) = .error .noValue := by
  cases f with
  | zero => rfl
  | succ k => exact resolve_cond_f_pred k item p pr

/-- **C7.**  A variable path followed by a bracketed expression parses to a
`Predicate` node (whenever the path and the bracketed predicate parse, the
combined parser succeeds and wraps them in `Expr.Predicate`; concretely
`a[1]` parses to `Predicate("a", Integer 1)`), but evaluating a `Predicate`
node against any record always fails with the explicit "No value" error —
it never silently succeeds. -/
theorem predicate_parses_eval_fails :
    (∀ f i rest p rest2 pr,
      parse_variable_path_f f i = some (rest, p) →
      parse_predicate_f f rest = some (rest2, pr) →
      parse_variable_with_predicate_f (f + 1) i = some (rest2, .Predicate p pr)) ∧
    (∀ item p pr, resolve_expr item (.Predicate p pr) = .error .noValue) ∧
    (∀ f item p pr, resolve_cond_f f item (.Predicate p pr) = .error .noValue) ∧
    parse_expr_s "a[1]" = some ([], .Predicate "a" (.Integer 1)) := by
  refine ⟨?_, ?_, resolve_cond_f_pred, by decide⟩
  · intro f i rest p rest2 pr h1 h2
    simp only [parse_variable_with_predicate_f, h1, h2]
  · intro item p pr
    exact resolve_expr_f_pred _ item p pr

/-- **C7, witness.**  The parse-composition part applied to the concrete
input `a[1]`. -/
theorem predicate_parses_eval_fails_witness :
    parse_variable_with_predicate_f 9 ("a[1]".toList) =
      some ([], .Predicate "a" (.Integer 1)) :=
  predicate_parses_eval_fails.1 8 ("a[1]".toList) ("[1]".toList) "a" [] (.Integer 1)
    (by decide) (by decide)

/-- **C8.**  Against a record whose field 1 holds the text `"5"`,
`Equal(Variable "$1", Integer 5)` returns `Bool(true)`: the string field is
coerced to an (arbitrary-precision) integer, the integer literal passes
through unchanged, and the coerced pair compares equal numerically. -/
theorem string_field_coerces_to_int_example :
    resolve_cond [Value.String "5"] (.Equal (.Variable "$1") (.Integer 5)) =
      .ok (.Bool true) := rfl

/-- **C10.**  Whitespace is rejected before the first atom of the input and
immediately after an opening parenthesis followed by an atom (` a && b` and
`( a)` fail to parse while the unpadded variants succeed), but is accepted
around the binary operators `==`/`&&`/`||` and before `(`, `)`, `[` and
`]`. -/
theorem whitespace_acceptance_profile :
    parse_expr_s " a && b" = none ∧
    parse_expr_s "a && b" = some ([], .And (.Variable "a") (.Variable "b")) ∧
    parse_expr_s "( a)" = none ∧
    parse_expr_s "(a)" = some ([], .Variable "a") ∧
    parse_expr_s "(a )" = some ([], .Variable "a") ∧
    parse_expr_s "a  ==  b" = some ([], .Equal (.Variable "a") (.Variable "b")) ∧
    parse_expr_s "a  &&  b" = some ([], .And (.Variable "a") (.Variable "b")) ∧
    parse_expr_s "a  ||  b" = some ([], .Or (.Variable "a") (.Variable "b")) ∧
    parse_expr_s "a && (b)" = some ([], .And (.Variable "a") (.Variable "b")) ∧
    parse_expr_s "a [1]" = some ([], .Predicate "a" (.Integer 1)) ∧
    parse_expr_s "a[1 ]" = some ([], .Predicate "a" (.Integer 1)) := by
  refine ⟨by decide, by decide, by decide, by decide, by decide, by decide,
    by decide, by decide, by decide, by decide, by decide⟩

/-! Digit-string machinery for C9: a digit sequence is represented by its
list of digit values. -/

/-- The ASCII character of a digit value. -/
def digitChar (d : Nat) : Char := Char.ofNat (48 + d)

/-- Numeric value of a digit-value list. -/
def natOfDigits (ds : List Nat) : Nat := ds.foldl (fun acc d => acc * 10 + d) 0

/-- The string whose characters are the given digits. -/
def strOfDigits (ds : List Nat) : String := String.mk (ds.map digitChar)

theorem digitChar_props (d : Nat) (h : d < 10) :
    (digitChar d).isDigit = true ∧ (digitChar d).isAlpha = false ∧
    (digitChar d).isWhitespace = false ∧ digitChar d ≠ '_' ∧
    digitChar d ≠ '$' ∧ digitChar d ≠ '(' ∧ (digitChar d).toNat = 48 + d := by
  interval_cases d <;> exact ⟨by decide, by decide, by decide, by decide,
    by decide, by decide, by decide⟩

theorem takeWhile_digitChar (ds : List Nat) (h : ∀ d ∈ ds, d < 10) :
    (ds.map digitChar).takeWhile Char.isDigit = ds.map digitChar := by
  induction ds with
  | nil => rfl
  | cons d ds2 ih =>
    have hd := (digitChar_props d (h d (List.mem_cons_self d ds2))).1
    simp only [List.map_cons, List.takeWhile_cons, hd, if_true]
    rw [ih (fun x hx => h x (List.mem_cons_of_mem d hx))]

theorem foldl_digitChar (ds : List Nat) (h : ∀ d ∈ ds, d < 10) :
    ∀ acc : Nat,
      (ds.map digitChar).foldl (fun a c => a * 10 + (c.toNat - 48)) acc =
        ds.foldl (fun a d => a * 10 + d) acc := by
  induction ds with
  | nil =>
    intro acc
    rfl
  | cons d ds2 ih =>
    intro acc
    have hd := (digitChar_props d (h d (List.mem_cons_self d ds2))).2.2.2.2.2.2
    simp only [List.map_cons, List.foldl_cons, hd]
    rw [show 48 + d - 48 = d by omega]
    exact ih (fun x hx => h x (List.mem_cons_of_mem d hx)) _

theorem digitsToNat_map (ds : List Nat) (h : ∀ d ∈ ds, d < 10) :
    digitsToNat (ds.map digitChar) = natOfDigits ds :=
  foldl_digitChar ds h 0

theorem parse_number_digitChar (ds : List Nat) (hne : ds ≠ [])
    (h : ∀ d ∈ ds, d < 10) :
    parse_number (ds.map digitChar) =
      if natOfDigits ds ≤ 9223372036854775807 then
        some ([], .Integer (natOfDigits ds)) else none := by
  unfold parse_number digit1
  rw [takeWhile_digitChar ds h]
  cases ds with
  | nil => exact absurd rfl hne
  | cons d ds2 =>
    simp only [List.map_cons]
    rw [show ((digitChar d :: ds2.map digitChar).drop
      (digitChar d :: ds2.map digitChar).length) = [] from List.drop_length _]
    rw [show digitsToNat (digitChar d :: ds2.map digitChar) =
      natOfDigits (d :: ds2) from digitsToNat_map (d :: ds2) h]

theorem parse_identifier_digit_head (d : Nat) (hd : d < 10) (t : List Char) :
    parse_identifier (digitChar d :: t) = none := by
  have h1 := (digitChar_props d hd).2.1
  have h2 := (digitChar_props d hd).2.2.2.1
  have h3 := (digitChar_props d hd).2.2.2.2.1
  unfold parse_identifier alpha1
  simp only [List.takeWhile_cons, h1]
  simp [h2, h3]

theorem parse_vwp_digit_head (f : Nat) (d : Nat) (hd : d < 10) (t : List Char) :
    parse_variable_with_predicate_f f (digitChar d :: t) = none := by
  cases f with
  | zero => rfl
  | succ k =>
    simp only [parse_variable_with_predicate_f, parse_variable_path_f,
      parse_identifier_digit_head d hd t]

theorem multispace0_digit_head (d : Nat) (hd : d < 10) (t : List Char) :
    multispace0 (digitChar d :: t) = digitChar d :: t := by
  have h := (digitChar_props d hd).2.2.1
  simp [multispace0, List.dropWhile_cons, h]

theorem tagP_paren_digit_head (d : Nat) (hd : d < 10) (t : List Char) :
    tagP ['('] (digitChar d :: t) = none := by
  have h := (digitChar_props d hd).2.2.2.2.2.1
  simp only [tagP, List.isPrefixOf, List.isPrefixOf_nil_left, Bool.and_true]
  rw [if_neg]
  simp only [Bool.and_eq_true, beq_iff_eq]
  exact fun hx => h hx.symm

theorem parse_atom_digitChar (f : Nat) (ds : List Nat) (hne : ds ≠ [])
    (h : ∀ d ∈ ds, d < 10) :
    parse_atom_f (f + 1) (ds.map digitChar) = parse_number (ds.map digitChar) := by
  cases ds with
  | nil => exact absurd rfl hne
  | cons d ds2 =>
    have hd : d < 10 := h d (List.mem_cons_self d ds2)
    simp only [List.map_cons]
    cases hp : parse_number (digitChar d :: ds2.map digitChar) with
    | some r => simp only [parse_atom_f, hp]
    | none =>
      simp only [parse_atom_f, hp, parse_vwp_digit_head f d hd,
        multispace0_digit_head d hd, tagP_paren_digit_head d hd]

/-- **C9, counterexample.**  The claim states that every non-empty digit
sequence is a valid integer atom with no upper bound on magnitude.  The
atom `9223372036854775808` (`i64::MAX + 1`) consists solely of digits, yet
`parse_atom` rejects it: the source parses the digits with
`s.parse::<i64>()` inside `map_res`, which fails on overflow. -/
theorem integer_atom_i64_overflow_cex :
    ("9223372036854775808".toList ≠ [] ∧
      ∀ c ∈ "9223372036854775808".toList, c.isDigit) ∧
    parse_atom_s "9223372036854775808" = none :=
  ⟨⟨by decide, by decide⟩, by decide⟩

/-- **C9, amended.**  A non-empty digit sequence is a valid integer atom if
and only if its value fits in a signed 64-bit integer: below
`i64::MAX = 2^63 - 1` it parses to the corresponding `Integer` literal
consuming the whole input, above it the atom parser fails.  The AST stores
`i64`, not an arbitrary-precision integer (arbitrary precision appears only
in the evaluator's string-to-int coercion). -/
theorem integer_atom_i64_bounded (ds : List Nat) (hne : ds ≠ [])
    (h : ∀ d ∈ ds, d < 10) :
    (natOfDigits ds ≤ 9223372036854775807 →
      parse_atom_s (strOfDigits ds) = some ([], .Integer (natOfDigits ds))) ∧
    (9223372036854775807 < natOfDigits ds →
      parse_atom_s (strOfDigits ds) = none) := by
  have key : parse_atom_s (strOfDigits ds) = parse_number (ds.map digitChar) :=
    parse_atom_digitChar (8 * (ds.map digitChar).length + 7) ds hne h
  rw [key, parse_number_digitChar ds hne h]
  constructor
  · intro hb
    rw [if_pos hb]
  · intro hb
    rw [if_neg (by omega)]

/-- **C9, witness.**  The amended statement applied to the single digit
`5`. -/
theorem integer_atom_i64_bounded_witness :
    parse_atom_s (strOfDigits [5]) = some ([], .Integer (natOfDigits [5])) :=
  (integer_atom_i64_bounded [5] (by decide) (by decide)).1 (by decide)

end Hawk
